import Mathlib

/-!
Shallow embedding of src/replit_agent/tabular_ai_service.py.

The service exposes one endpoint, clean_enrich, taking a RecordsRequest
(a list of JSON records plus an optional mode string).  The code modes are
the strings "huggingface", "tabpfn" and "basic"; the specification names
them generative, statistical and basic respectively, and that renaming is
used throughout the claim theorems below.

Modelling conventions, stated once here:
- JSON values are the inductive Json below.  A record (one row) is an
  association list from field name to Json; Python dicts have unique keys,
  so lemmas that need it take an explicit Nodup hypothesis.
- pandas behaviour that the code relies on is modelled concretely:
  pd.DataFrame(records) forms the union of the field names of all records
  in first-seen order (columns below); every row is materialized over the
  full column list with the missing-value sentinel (NaN) for absent
  fields, modelled as Json.null (rowToDict below).  Numeric dtype
  promotion (int to float in columns containing a missing value) is not
  modelled; no claim depends on the numeric value of a cell, and all
  concrete inputs below use string cells, for which pandas keeps the
  values unchanged (object dtype).
- applymap with the strip lambda plus fillna is sanitize below; Python
  str.strip is pyStrip, stripping the ASCII whitespace recognized by
  Char.isWhitespace (Python also strips some rarer Unicode whitespace;
  no claim distinguishes those characters).
- The external world is passed in as parameters: apiKey models
  os.getenv for the credential (None when unset), oracle models one
  requests.post call plus response.json() per 0-based row index, giving
  either the parsed JSON body or the message of a raised exception, and
  jl models Python json.loads applied to a brace-delimited candidate
  (returning the fields of the resulting object, or none on a parse
  error).  The claims quantify over these parameters, which is exactly
  the quantification the specification uses (stubs that always fail,
  and so on).
-/

/-- A JSON value, as carried in request records and response bodies. -/
inductive Json where
  | str (s : String)
  | num (n : Int)
  | bool (b : Bool)
  | null
  | arr (elems : List Json)
  | obj (fields : List (String × Json))

/-- One row of tabular input: a field-name-to-value mapping (a Python dict). -/
abbrev Record := List (String × Json)

/-- First-match association lookup; models Python dict access (dict keys are
unique, so first match equals the dict entry). -/
def lookup : Record → String → Option Json
  | [], _ => none
  | p :: rest, k => if p.1 = k then some p.2 else lookup rest k

/-- The field names of a record, in insertion order. -/
def keys (r : Record) : List String := r.map Prod.fst

/-- Append a column label if it is not present yet (pandas keeps the
first-seen order of column labels and never duplicates one). -/
def insertCol (acc : List String) (k : String) : List String :=
  if k ∈ acc then acc else acc ++ [k]

/-- The column labels of pd.DataFrame(records): the union of the field
names of all records, in first-seen order, without duplicates. -/
def columns (rs : List Record) : List String :=
  rs.foldl (fun acc r => (keys r).foldl insertCol acc) []

/-- Python str.strip(): drop leading and trailing whitespace characters. -/
def pyStrip (s : String) : String :=
  String.mk (((s.data.dropWhile Char.isWhitespace).reverse.dropWhile
    Char.isWhitespace).reverse)

/-- One cell of the tabpfn/basic path, source lines 71-72: the cell value
after applymap (strip every str cell) followed by fillna (replace the
missing-value sentinel, i.e. an absent field or a null, by the empty
string).  All other values pass through unchanged. -/
def stripFill : Option Json → Json
  | none => Json.str ""
  | some Json.null => Json.str ""
  | some (Json.str s) => Json.str (pyStrip s)
  | some v => v

/-- Source lines 71-73 (and identically 75-77): build the DataFrame over the
column union, strip string cells, fill missing cells with the empty string,
and read the rows back as records via to_dict(orient=records). -/
def sanitize (rs : List Record) : List Record :=
  rs.map (fun r => (columns rs).map (fun k => (k, stripFill (lookup r k))))

/-- Python truthiness of a JSON value, used by the source at
text = result.get(...) or ... and at if text. -/
def truthy : Json → Bool
  | Json.str s => if s = "" then false else true
  | Json.num n => if n = 0 then false else true
  | Json.bool b => b
  | Json.null => false
  | Json.arr elems => if elems.isEmpty then false else true
  | Json.obj fields => if fields.isEmpty then false else true

/-- The opening brace character. -/
def lbrace : Char := Char.ofNat 123

/-- The closing brace character. -/
def rbrace : Char := Char.ofNat 125

/-- Source line 55: re.search for an opening brace, then greedily anything,
then a closing brace, with DOTALL.  The match, when some, runs from the
first opening brace to the last closing brace strictly after it. -/
def braceMatch (s : String) : Option String :=
  match s.data.dropWhile (fun c => if c = lbrace then false else true) with
  | [] => none
  | c :: rest =>
    match rest.reverse.dropWhile (fun c => if c = rbrace then false else true) with
    | [] => none
    | r => some (String.mk (c :: r.reverse))

/-- Outcome of processing one row in huggingface mode: append a cleaned
record, silently append the original row, or append the original row
together with a RowError (only the exception handler emits a RowError). -/
inductive RowStep where
  | ok (cleaned : Record)
  | fallback
  | failed (msg : String)

/-- Source lines 43-68, the body of one huggingface-mode iteration, given
the outcome of the external call for this row.  Control flow notes, traced
from the source:
- an exception from requests.post or response.json() reaches the outer
  handler (failed);
- when the body is not a dict, result.get raises AttributeError, so the
  guarded list expression after the or operator is dead code and the row
  reaches the outer handler (failed);
- when the body is a dict, a missing or falsy generated_text gives
  text = None, hence the silent fallback branch with no RowError;
- a truthy non-string generated_text makes re.search raise TypeError,
  reaching the outer handler (failed);
- for a truthy string, a missing brace match or a json.loads failure both
  silently append the original row with no RowError, and a parse success
  appends the parsed object. -/
def hfRowStep (jl : String → Option Record) (call : Except String Json) : RowStep :=
  match call with
  | Except.error msg => RowStep.failed msg
  | Except.ok (Json.obj fields) =>
    match lookup fields "generated_text" with
    | none => RowStep.fallback
    | some v =>
      if truthy v then
        match v with
        | Json.str s =>
          match braceMatch s with
          | none => RowStep.fallback
          | some sub =>
            match jl sub with
            | some cleaned => RowStep.ok cleaned
            | none => RowStep.fallback
        | _ => RowStep.failed "TypeError: expected string or bytes-like object"
      else RowStep.fallback
  | Except.ok _ => RowStep.failed "AttributeError: object has no attribute get"

/-- row.to_dict() for a row of pd.DataFrame(records): the record
materialized over the full column list, with the missing-value sentinel
(modelled as null) for absent fields. -/
def rowToDict (cols : List String) (r : Record) : Record :=
  cols.map (fun k => (k, (lookup r k).getD Json.null))

/-- A per-row error entry, source line 67: 1-based row index, the row as
materialized from the DataFrame, and the exception message. -/
structure RowError where
  rowIndex : Nat
  data : Record
  error : String

/-- Source lines 41-68: iterate the rows with their 0-based DataFrame index,
accumulating cleaned_records and error_rows in iteration order. -/
def hfProcessAux (jl : String → Option Record) (oracle : Nat → Except String Json)
    (cols : List String) : Nat → List Record → List Record × List RowError
  | _, [] => ([], [])
  | i, r :: rest =>
    let tail := hfProcessAux jl oracle cols (i + 1) rest
    match hfRowStep jl (oracle i) with
    | RowStep.ok cleaned => (cleaned :: tail.1, tail.2)
    | RowStep.fallback => (rowToDict cols r :: tail.1, tail.2)
    | RowStep.failed msg =>
      (rowToDict cols r :: tail.1, RowError.mk (i + 1) (rowToDict cols r) msg :: tail.2)

/-- The huggingface-mode loop over the whole batch, starting at row index 0,
over the column union of the batch. -/
def hfProcess (jl : String → Option Record) (oracle : Nat → Except String Json)
    (rs : List Record) : List Record × List RowError :=
  hfProcessAux jl oracle (columns rs) 0 rs

/-- Source line 39: if not HUGGINGFACE_API_KEY.  os.getenv gives None when
the variable is unset; Python truthiness also treats the empty string as
missing. -/
def hasKey : Option String → Bool
  | none => false
  | some s => if s = "" then false else true

/-- Source line 31: mode = request.mode or the default string tabpfn.  The
pydantic default (field absent) and an explicit null both give None, hence
the default; the or operator also sends the falsy empty string to the
default. -/
def effectiveMode : Option String → String
  | none => "tabpfn"
  | some s => if s = "" then "tabpfn" else s

/-- The request body, source lines 21-23. -/
structure RecordsRequest where
  records : List Record
  mode : Option String

/-- The normal response envelope, source lines 79-85. -/
structure Envelope where
  data : List Record
  errorRows : List RowError
  enhancementStats : List (String × Json)
  duplicateWarnings : List Json
  usedAI : String

/-- The result of clean_enrich: either the credential-missing short-circuit
envelope of source line 40, or the normal envelope. -/
inductive CEResult where
  | credError (error : String) (data : List Record) (usedAI : String)
  | ok (env : Envelope)

/-- The data field of either result shape. -/
def CEResult.envData : CEResult → List Record
  | CEResult.credError _ d _ => d
  | CEResult.ok e => e.data

/-- The errorRows of the result; the credential-missing envelope carries
none. -/
def CEResult.envErrors : CEResult → List RowError
  | CEResult.credError _ _ _ => []
  | CEResult.ok e => e.errorRows

/-- The usedAI field of either result shape. -/
def CEResult.usedMode : CEResult → String
  | CEResult.credError _ _ u => u
  | CEResult.ok e => e.usedAI

/-- Source lines 28-85: the clean_enrich endpoint.  The external
collaborators are passed in as parameters: apiKey is the environment
credential, jl is json.loads, oracle is the per-row external call. -/
def clean_enrich (apiKey : Option String) (jl : String → Option Record)
    (oracle : Nat → Except String Json) (req : RecordsRequest) : CEResult :=
  let mode := effectiveMode req.mode
  if mode = "huggingface" then
    if hasKey apiKey = false then
      CEResult.credError "No Hugging Face API key set in environment." [] mode
    else
      let pr := hfProcess jl oracle req.records
      CEResult.ok (Envelope.mk pr.1 pr.2 [] [] mode)
  else if mode = "tabpfn" then
    CEResult.ok (Envelope.mk (sanitize req.records) [] [] [] mode)
  else
    CEResult.ok (Envelope.mk (sanitize req.records) [] [] [] mode)

/-- The shape of the requests.post call at source lines 44-48: the model
URL, the Authorization header, and the keyword arguments actually passed.
The call passes headers and json only; no timeout keyword appears, so the
timeout field of the call is none (requests then waits indefinitely). -/
structure HFPostCall where
  url : String
  hasAuthHeader : Bool
  timeout : Option Nat

/-- The call as written at source lines 44-48 for a given model name. -/
def hfPostCall (model : String) : HFPostCall :=
  { url := "https://api-inference.huggingface.co/models/" ++ model
    hasAuthHeader := true
    timeout := none }

/-- Rows paired with their 0-based DataFrame index from a given start. -/
def enumRows : Nat → List Record → List (Nat × Record)
  | _, [] => []
  | n, r :: rest => (n, r) :: enumRows (n + 1) rest

/-! ### List and string helper lemmas -/

theorem dropWhile_idem (p : α → Bool) (l : List α) :
    (l.dropWhile p).dropWhile p = l.dropWhile p := by
  induction l with
  | nil => rfl
  | cons a l ih =>
    by_cases h : p a
    · simp [List.dropWhile_cons, h, ih]
    · simp [List.dropWhile_cons, h]

theorem dropWhile_sfx (p : α → Bool) (l : List α) :
    ∃ t, t ++ l.dropWhile p = l := by
  induction l with
  | nil => exact ⟨[], rfl⟩
  | cons a l ih =>
    by_cases h : p a
    · obtain ⟨t, ht⟩ := ih
      exact ⟨a :: t, by simp [List.dropWhile_cons, h, ht]⟩
    · exact ⟨[], by simp [List.dropWhile_cons, h]⟩

theorem dropWhile_head_false (p : α → Bool) (l : List α) (c : α) (t : List α)
    (h : l.dropWhile p = c :: t) : p c = false := by
  induction l with
  | nil => simp [List.dropWhile] at h
  | cons a l ih =>
    by_cases hp : p a
    · rw [List.dropWhile_cons_of_pos hp] at h
      exact ih h
    · rw [List.dropWhile_cons_of_neg hp] at h
      injection h with h1 h2
      subst h1
      simpa using hp

theorem stripCore_idem (w : α → Bool) (l : List α) :
    (((((l.dropWhile w).reverse.dropWhile w).reverse).dropWhile w).reverse.dropWhile w).reverse
      = ((l.dropWhile w).reverse.dropWhile w).reverse := by
  have hbrev : (((l.dropWhile w).reverse.dropWhile w).reverse).dropWhile w
      = ((l.dropWhile w).reverse.dropWhile w).reverse := by
    cases hc : ((l.dropWhile w).reverse.dropWhile w).reverse with
    | nil => rfl
    | cons c u =>
      obtain ⟨t, ht⟩ := dropWhile_sfx w (l.dropWhile w).reverse
      have ha : l.dropWhile w
          = ((l.dropWhile w).reverse.dropWhile w).reverse ++ t.reverse := by
        have h2 := congrArg List.reverse ht
        simpa using h2.symm
      have hu2 : l.dropWhile w = c :: (u ++ t.reverse) := by
        rw [ha, hc]; rfl
      have hwc : w c = false := dropWhile_head_false w l c (u ++ t.reverse) hu2
      rw [List.dropWhile_cons_of_neg (by simp [hwc])]
  rw [hbrev, List.reverse_reverse, dropWhile_idem]

theorem pyStrip_idem (s : String) : pyStrip (pyStrip s) = pyStrip s :=
  congrArg String.mk (stripCore_idem Char.isWhitespace s.data)

/-! ### Lookup and column-union lemmas -/

theorem lookup_mapCols (cols : List String) (f : String → Json) (k : String) :
    lookup (cols.map (fun c => (c, f c))) k = if k ∈ cols then some (f k) else none := by
  induction cols with
  | nil => rfl
  | cons c cs ih =>
    simp only [List.map_cons, lookup]
    by_cases h : c = k
    · subst h; simp
    · simp only [h, if_false, ih, List.mem_cons]
      have hkc : ¬ k = c := fun hh => h hh.symm
      by_cases hk : k ∈ cs
      · simp [hk]
      · simp [hk, hkc]

theorem keys_mapCols (cols : List String) (f : String → Json) :
    keys (cols.map (fun c => (c, f c))) = cols := by
  simp only [keys, List.map_map]
  exact List.map_id cols

theorem lookup_mem_keys (r : Record) (k : String) (v : Json)
    (h : lookup r k = some v) : k ∈ keys r := by
  induction r with
  | nil => simp [lookup] at h
  | cons p rest ih =>
    simp only [lookup] at h
    by_cases hp : p.1 = k
    · simp [keys, hp.symm]
    · simp only [hp, if_false] at h
      simp [keys]
      right
      simpa [keys] using ih h

theorem lookup_eq_none_of_not_mem (r : Record) (k : String)
    (h : ¬ k ∈ keys r) : lookup r k = none := by
  induction r with
  | nil => rfl
  | cons p rest ih =>
    simp only [keys, List.map_cons, List.mem_cons] at h
    push_neg at h
    have h1 : ¬ p.1 = k := fun hh => h.1 hh.symm
    simp only [lookup, h1, if_false]
    exact ih (by simpa [keys] using h.2)

theorem mem_foldl_insertCol (ks : List String) (acc : List String) (k : String) :
    k ∈ ks.foldl insertCol acc ↔ k ∈ acc ∨ k ∈ ks := by
  induction ks generalizing acc with
  | nil => simp
  | cons a ks ih =>
    simp only [List.foldl_cons, ih, insertCol]
    by_cases h : a ∈ acc
    · simp only [h, if_true, List.mem_cons]
      constructor
      · rintro (hk | hk)
        · exact Or.inl hk
        · exact Or.inr (Or.inr hk)
      · rintro (hk | rfl | hk)
        · exact Or.inl hk
        · exact Or.inl h
        · exact Or.inr hk
    · simp only [h, if_false, List.mem_append, List.mem_singleton, List.mem_cons]
      tauto

theorem mem_columns (rs : List Record) (k : String) :
    k ∈ columns rs ↔ ∃ r, r ∈ rs ∧ k ∈ keys r := by
  have main : ∀ acc, k ∈ rs.foldl (fun acc r => (keys r).foldl insertCol acc) acc
      ↔ k ∈ acc ∨ ∃ r, r ∈ rs ∧ k ∈ keys r := by
    induction rs with
    | nil => simp
    | cons r rest ih =>
      intro acc
      simp only [List.foldl_cons, ih, mem_foldl_insertCol, List.mem_cons]
      constructor
      · rintro ((hk | hk) | ⟨r2, hr2, hk⟩)
        · exact Or.inl hk
        · exact Or.inr ⟨r, Or.inl rfl, hk⟩
        · exact Or.inr ⟨r2, Or.inr hr2, hk⟩
      · rintro (hk | ⟨r2, rfl | hr2, hk⟩)
        · exact Or.inl (Or.inl hk)
        · exact Or.inl (Or.inr hk)
        · exact Or.inr ⟨r2, hr2, hk⟩
  simpa using main []

theorem nodup_foldl_insertCol (ks : List String) (acc : List String)
    (h : acc.Nodup) : (ks.foldl insertCol acc).Nodup := by
  induction ks generalizing acc with
  | nil => exact h
  | cons a ks ih =>
    simp only [List.foldl_cons]
    apply ih
    unfold insertCol
    by_cases ha : a ∈ acc
    · simpa [ha] using h
    · simp only [ha, if_false]
      simp [List.nodup_append, h, ha]

theorem columns_nodup (rs : List Record) : (columns rs).Nodup := by
  have main : ∀ acc : List String, acc.Nodup →
      (rs.foldl (fun acc r => (keys r).foldl insertCol acc) acc).Nodup := by
    induction rs with
    | nil => exact fun acc h => h
    | cons r rest ih =>
      intro acc h
      exact ih _ (nodup_foldl_insertCol _ _ h)
  exact main [] List.nodup_nil

theorem foldl_insertCol_absorb (ks acc : List String) (h : ∀ k ∈ ks, k ∈ acc) :
    ks.foldl insertCol acc = acc := by
  induction ks with
  | nil => rfl
  | cons a ks ih =>
    simp only [List.foldl_cons]
    rw [show insertCol acc a = acc from by unfold insertCol; simp [h a (by simp)]]
    exact ih (fun k hk => h k (by simp [hk]))

theorem foldl_insertCol_fresh (ks : List String) :
    ∀ acc, ks.Nodup → (∀ k ∈ ks, ¬ k ∈ acc) → ks.foldl insertCol acc = acc ++ ks := by
  induction ks with
  | nil => simp
  | cons a ks ih =>
    intro acc hnd h
    simp only [List.foldl_cons]
    rw [show insertCol acc a = acc ++ [a] from by
      unfold insertCol; simp [h a (by simp)]]
    rw [ih (acc ++ [a]) (List.nodup_cons.mp hnd).2 ?_]
    · simp
    · intro k hk
      simp only [List.mem_append, List.mem_singleton]
      rintro (hka | rfl)
      · exact h k (by simp [hk]) hka
      · exact (List.nodup_cons.mp hnd).1 hk

theorem foldl_step_const (rest : List Record) (ks : List String)
    (h : ∀ r ∈ rest, keys r = ks) :
    rest.foldl (fun acc r => (keys r).foldl insertCol acc) ks = ks := by
  induction rest with
  | nil => rfl
  | cons r rest ih =>
    simp only [List.foldl_cons]
    rw [h r (by simp), foldl_insertCol_absorb ks ks (fun k hk => hk)]
    exact ih (fun r2 hr2 => h r2 (by simp [hr2]))

theorem columns_uniform (rs : List Record) (ks : List String)
    (hks : ∀ r ∈ rs, keys r = ks) (hnd : ks.Nodup) (hne : rs ≠ []) :
    columns rs = ks := by
  cases rs with
  | nil => exact absurd rfl hne
  | cons r rest =>
    unfold columns
    simp only [List.foldl_cons]
    rw [hks r (by simp), foldl_insertCol_fresh ks [] hnd (by simp),
      List.nil_append]
    exact foldl_step_const rest ks (fun r2 hr2 => hks r2 (by simp [hr2]))

theorem rowToDict_self (r : Record) (hnd : (keys r).Nodup) :
    rowToDict (keys r) r = r := by
  induction r with
  | nil => rfl
  | cons p rest ih =>
    unfold rowToDict
    simp only [keys, List.map_cons]
    simp only [keys, List.map_cons] at hnd
    have hnd2 := List.nodup_cons.mp hnd
    have hhead : (p.1, (lookup (p :: rest) p.1).getD Json.null) = p := by
      rw [show lookup (p :: rest) p.1 = some p.2 from by simp [lookup]]
      rfl
    rw [hhead]
    have htail : (rest.map Prod.fst).map
        (fun k => (k, (lookup (p :: rest) k).getD Json.null))
        = (rest.map Prod.fst).map (fun k => (k, (lookup rest k).getD Json.null)) := by
      apply List.map_congr_left
      intro k hk
      have hne : ¬ p.1 = k := by
        intro hc
        subst hc
        exact hnd2.1 hk
      simp [lookup, hne]
    rw [htail]
    exact congrArg (List.cons p) (ih hnd2.2)

/-! ### Sanitizer lemmas -/

theorem stripFill_stripFill (v : Option Json) :
    stripFill (some (stripFill v)) = stripFill v := by
  match v with
  | none => show stripFill (some (Json.str "")) = Json.str ""; rfl
  | some Json.null => show stripFill (some (Json.str "")) = Json.str ""; rfl
  | some (Json.str s) =>
    show Json.str (pyStrip (pyStrip s)) = Json.str (pyStrip s)
    rw [pyStrip_idem]
  | some (Json.num n) => rfl
  | some (Json.bool b) => rfl
  | some (Json.arr elems) => rfl
  | some (Json.obj fields) => rfl

theorem stripFill_fixed (v : Option Json) (s : String)
    (h : stripFill v = Json.str s) : pyStrip s = s := by
  match v with
  | none =>
    injection h with h1
    subst h1
    rfl
  | some Json.null =>
    injection h with h1
    subst h1
    rfl
  | some (Json.str t) =>
    injection h with h1
    subst h1
    exact pyStrip_idem t
  | some (Json.num n) => exact absurd h (by simp [stripFill])
  | some (Json.bool b) => exact absurd h (by simp [stripFill])
  | some (Json.arr elems) => exact absurd h (by simp [stripFill])
  | some (Json.obj fields) => exact absurd h (by simp [stripFill])

theorem sanitize_length (rs : List Record) : (sanitize rs).length = rs.length := by
  simp [sanitize]

theorem sanitize_keys (rs : List Record) (r : Record) (hr : r ∈ sanitize rs) :
    keys r = columns rs := by
  unfold sanitize at hr
  obtain ⟨r0, _, rfl⟩ := List.mem_map.mp hr
  exact keys_mapCols (columns rs) (fun k => stripFill (lookup r0 k))

theorem sanitize_ne_nil (rs : List Record) (h : rs ≠ []) : sanitize rs ≠ [] := by
  cases rs with
  | nil => exact absurd rfl h
  | cons r rest => simp [sanitize]

theorem columns_sanitize (rs : List Record) : columns (sanitize rs) = columns rs := by
  cases hrs : rs with
  | nil => rfl
  | cons r rest =>
    apply columns_uniform
    · intro r2 hr2
      exact sanitize_keys (r :: rest) r2 hr2
    · exact columns_nodup (r :: rest)
    · exact sanitize_ne_nil (r :: rest) (by simp)

theorem lookup_sanitized (rs : List Record) (r : Record) (k : String)
    (hk : k ∈ columns rs) :
    lookup ((columns rs).map (fun c => (c, stripFill (lookup r c)))) k
      = some (stripFill (lookup r k)) := by
  rw [lookup_mapCols (columns rs) (fun c => stripFill (lookup r c)) k, if_pos hk]

theorem sanitize_idem (rs : List Record) : sanitize (sanitize rs) = sanitize rs := by
  have step : sanitize (sanitize rs)
      = (sanitize rs).map (fun r => (columns rs).map (fun k => (k, stripFill (lookup r k)))) := by
    show (sanitize rs).map (fun r => (columns (sanitize rs)).map (fun k => (k, stripFill (lookup r k))))
      = (sanitize rs).map (fun r => (columns rs).map (fun k => (k, stripFill (lookup r k))))
    rw [columns_sanitize]
  rw [step]
  conv_rhs => rw [show sanitize rs = (sanitize rs).map id from (List.map_id (sanitize rs)).symm]
  apply List.map_congr_left
  intro r hr
  unfold sanitize at hr
  obtain ⟨r0, _, rfl⟩ := List.mem_map.mp hr
  show (columns rs).map
      (fun k => (k, stripFill (lookup ((columns rs).map (fun c => (c, stripFill (lookup r0 c)))) k)))
    = (columns rs).map (fun c => (c, stripFill (lookup r0 c)))
  apply List.map_congr_left
  intro k hk
  rw [lookup_sanitized rs r0 k hk, stripFill_stripFill]

/-! ### Huggingface-loop lemmas -/

theorem enumRows_length (rs : List Record) : ∀ n, (enumRows n rs).length = rs.length := by
  induction rs with
  | nil => intro n; rfl
  | cons r rest ih =>
    intro n
    simp [enumRows, ih]

theorem hfAux_fst (jl : String → Option Record) (oracle : Nat → Except String Json)
    (cols : List String) (rs : List Record) :
    ∀ i, (hfProcessAux jl oracle cols i rs).1 =
      (enumRows i rs).map (fun p =>
        match hfRowStep jl (oracle p.1) with
        | RowStep.ok c => c
        | RowStep.fallback => rowToDict cols p.2
        | RowStep.failed _ => rowToDict cols p.2) := by
  induction rs with
  | nil => intro i; rfl
  | cons r rest ih =>
    intro i
    simp only [hfProcessAux, enumRows, List.map_cons]
    cases h : hfRowStep jl (oracle i) <;> simp [h, ih]

theorem hfAux_len (jl : String → Option Record) (oracle : Nat → Except String Json)
    (cols : List String) (rs : List Record) (i : Nat) :
    (hfProcessAux jl oracle cols i rs).1.length = rs.length := by
  rw [hfAux_fst jl oracle cols rs i]
  simp [enumRows_length]

theorem hfAux_data_get (jl : String → Option Record) (oracle : Nat → Except String Json)
    (cols : List String) (rs : List Record) :
    ∀ (i j : Nat) (hj : j < rs.length) (m : String),
      oracle (i + j) = Except.error m →
      ((hfProcessAux jl oracle cols i rs).1)[j]? = some (rowToDict cols (rs.get ⟨j, hj⟩)) := by
  induction rs with
  | nil =>
    intro i j hj
    exact absurd hj (by simp)
  | cons r rest ih =>
    intro i j hj m hm
    cases j with
    | zero =>
      have hi : oracle i = Except.error m := by simpa using hm
      simp [hfProcessAux, hi, hfRowStep]
    | succ j =>
      have hm2 : oracle ((i + 1) + j) = Except.error m := by
        rw [show (i + 1) + j = i + (j + 1) from by omega]
        exact hm
      have hrec := ih (i + 1) j (by simp at hj; omega) m hm2
      simp only [hfProcessAux]
      cases h : hfRowStep jl (oracle i) <;> simp [h, hrec]

theorem hfAux_err_mem (jl : String → Option Record) (oracle : Nat → Except String Json)
    (cols : List String) (rs : List Record) :
    ∀ (i j : Nat) (hj : j < rs.length) (m : String),
      oracle (i + j) = Except.error m →
      RowError.mk (i + j + 1) (rowToDict cols (rs.get ⟨j, hj⟩)) m
        ∈ (hfProcessAux jl oracle cols i rs).2 := by
  induction rs with
  | nil =>
    intro i j hj
    exact absurd hj (by simp)
  | cons r rest ih =>
    intro i j hj m hm
    cases j with
    | zero =>
      have hi : oracle i = Except.error m := by simpa using hm
      simp [hfProcessAux, hi, hfRowStep]
    | succ j =>
      have hm2 : oracle ((i + 1) + j) = Except.error m := by
        rw [show (i + 1) + j = i + (j + 1) from by omega]
        exact hm
      have hrec := ih (i + 1) j (by simp at hj; omega) m hm2
      have harith : (i + 1) + j + 1 = i + (j + 1) + 1 := by omega
      rw [harith] at hrec
      cases h : hfRowStep jl (oracle i) with
      | ok c => simpa [hfProcessAux, h] using hrec
      | fallback => simpa [hfProcessAux, h] using hrec
      | failed msg2 => simpa [hfProcessAux, h] using hrec

theorem hfAux_allfail (jl : String → Option Record) (oracle : Nat → Except String Json)
    (ks : List String) (rs : List Record) :
    ∀ i, (∀ r ∈ rs, keys r = ks) → ks.Nodup →
      (∀ j, j < rs.length → ∃ m, oracle (i + j) = Except.error m) →
      (hfProcessAux jl oracle ks i rs).1 = rs
      ∧ (hfProcessAux jl oracle ks i rs).2.map RowError.rowIndex
          = (List.range rs.length).map (fun j => i + j + 1)
      ∧ (hfProcessAux jl oracle ks i rs).2.map RowError.data = rs := by
  induction rs with
  | nil => intro i _ _ _; exact ⟨rfl, rfl, rfl⟩
  | cons r rest ih =>
    intro i hks hnd hfail
    obtain ⟨m, hm⟩ := hfail 0 (by simp)
    have hm0 : oracle i = Except.error m := by simpa using hm
    have hstep : hfRowStep jl (oracle i) = RowStep.failed m := by
      rw [hm0]
      rfl
    have hihyp : ∀ j, j < rest.length → ∃ m2, oracle ((i + 1) + j) = Except.error m2 := by
      intro j hj
      obtain ⟨m2, hm2⟩ := hfail (j + 1) (by simp; omega)
      exact ⟨m2, by rw [show (i + 1) + j = i + (j + 1) from by omega]; exact hm2⟩
    have hrest := ih (i + 1) (fun r2 hr2 => hks r2 (by simp [hr2])) hnd hihyp
    have hrow : rowToDict ks r = r := by
      rw [show ks = keys r from (hks r (by simp)).symm]
      exact rowToDict_self r (by rw [hks r (by simp)]; exact hnd)
    refine ⟨?_, ?_, ?_⟩
    · simp [hfProcessAux, hstep, hrow, hrest.1]
    · have h1 : (hfProcessAux jl oracle ks i (r :: rest)).2
          = RowError.mk (i + 1) (rowToDict ks r) m
            :: (hfProcessAux jl oracle ks (i + 1) rest).2 := by
        simp [hfProcessAux, hstep]
      rw [h1, List.map_cons, hrest.2.1]
      rw [List.length_cons, List.range_succ_eq_map, List.map_cons, List.map_map]
      congr 1
      apply List.map_congr_left
      intro j hj
      simp only [Function.comp]
      omega
    · have h1 : (hfProcessAux jl oracle ks i (r :: rest)).2
          = RowError.mk (i + 1) (rowToDict ks r) m
            :: (hfProcessAux jl oracle ks (i + 1) rest).2 := by
        simp [hfProcessAux, hstep]
      rw [h1, List.map_cons, hrest.2.2, hrow]

/-! ### Mode-dispatch reduction lemmas for clean_enrich -/

theorem clean_enrich_sanitize (apiKey : Option String) (jl : String → Option Record)
    (oracle : Nat → Except String Json) (records : List Record) (s : String)
    (hs1 : ¬ s = "huggingface") (hs2 : ¬ s = "") :
    clean_enrich apiKey jl oracle ⟨records, some s⟩
      = CEResult.ok (Envelope.mk (sanitize records) [] [] [] s) := by
  unfold clean_enrich effectiveMode
  simp only [hs2, if_false, hs1]
  by_cases ht : s = "tabpfn" <;> simp [ht]

theorem clean_enrich_default (apiKey : Option String) (jl : String → Option Record)
    (oracle : Nat → Except String Json) (records : List Record) :
    clean_enrich apiKey jl oracle ⟨records, none⟩
      = CEResult.ok (Envelope.mk (sanitize records) [] [] [] "tabpfn") := by
  simp [clean_enrich, effectiveMode]

theorem clean_enrich_empty_mode (apiKey : Option String) (jl : String → Option Record)
    (oracle : Nat → Except String Json) (records : List Record) :
    clean_enrich apiKey jl oracle ⟨records, some ""⟩
      = CEResult.ok (Envelope.mk (sanitize records) [] [] [] "tabpfn") := by
  simp [clean_enrich, effectiveMode]

theorem clean_enrich_hf (apiKey : Option String) (jl : String → Option Record)
    (oracle : Nat → Except String Json) (records : List Record)
    (hkey : hasKey apiKey = true) :
    clean_enrich apiKey jl oracle ⟨records, some "huggingface"⟩
      = CEResult.ok (Envelope.mk (hfProcess jl oracle records).1
          (hfProcess jl oracle records).2 [] [] "huggingface") := by
  simp [clean_enrich, effectiveMode, hkey]

theorem clean_enrich_hf_nokey (apiKey : Option String) (jl : String → Option Record)
    (oracle : Nat → Except String Json) (records : List Record)
    (hkey : hasKey apiKey = false) :
    clean_enrich apiKey jl oracle ⟨records, some "huggingface"⟩
      = CEResult.credError "No Hugging Face API key set in environment." [] "huggingface" := by
  simp [clean_enrich, effectiveMode, hkey]

/-! ### Claim theorems -/

/-- Claim C2 (confirmed): in generative mode (code string huggingface) with
the credential absent from the environment, clean_enrich returns, for any
batch including the empty one, the credential-missing envelope: empty data,
a populated (nonempty) top-level error message, usedAI echoing the mode,
and no per-row errors.  The result does not depend on the oracle or on the
records, so no row is processed. -/
theorem claimC2_missing_credential (apiKey : Option String)
    (jl : String → Option Record) (oracle : Nat → Except String Json)
    (records : List Record) (hkey : apiKey = none) :
    clean_enrich apiKey jl oracle ⟨records, some "huggingface"⟩
      = CEResult.credError "No Hugging Face API key set in environment." [] "huggingface"
    ∧ (clean_enrich apiKey jl oracle ⟨records, some "huggingface"⟩).envErrors = []
    ∧ ¬ ("No Hugging Face API key set in environment." = "") := by
  subst hkey
  refine ⟨clean_enrich_hf_nokey none jl oracle records rfl, ?_, by decide⟩
  rw [clean_enrich_hf_nokey none jl oracle records rfl]
  rfl

theorem claimC2_missing_credential_witness :
    (none : Option String) = none
    ∧ (clean_enrich none (fun _ => none) (fun _ => Except.error "")
          ⟨[], some "huggingface"⟩
        = CEResult.credError "No Hugging Face API key set in environment." [] "huggingface"
      ∧ (clean_enrich none (fun _ => none) (fun _ => Except.error "")
          ⟨[], some "huggingface"⟩).envErrors = []
      ∧ ¬ ("No Hugging Face API key set in environment." = "")) :=
  ⟨rfl, claimC2_missing_credential none (fun _ => none) (fun _ => Except.error "") [] rfl⟩

/-- Claim C8 (confirmed): the concrete scenario of the specification.  For
records = [(name: " Alice ", age: null)] and mode basic, the response has
data = [(name: "Alice", age: "")], empty errorRows, and usedAI = basic. -/
theorem claimC8_concrete_scenario :
    clean_enrich none (fun _ => none) (fun _ => Except.error "")
        ⟨[[("name", Json.str " Alice "), ("age", Json.null)]], some "basic"⟩
      = CEResult.ok (Envelope.mk [[("name", Json.str "Alice"), ("age", Json.str "")]]
          [] [] [] "basic") := rfl

/-- Claim C9 (confirmed): every request that reaches the normal envelope
(not the credential short-circuit) has empty enhancementStats and empty
duplicateWarnings: the source initializes both to empty and no branch ever
appends to them. -/
theorem claimC9_reserved_fields (apiKey : Option String)
    (jl : String → Option Record) (oracle : Nat → Except String Json)
    (req : RecordsRequest) (e : Envelope)
    (h : clean_enrich apiKey jl oracle req = CEResult.ok e) :
    e.enhancementStats = [] ∧ e.duplicateWarnings = [] := by
  simp only [clean_enrich] at h
  split at h
  · split at h
    · simp at h
    · injection h with h2
      subst h2
      exact ⟨rfl, rfl⟩
  · split at h
    · injection h with h2
      subst h2
      exact ⟨rfl, rfl⟩
    · injection h with h2
      subst h2
      exact ⟨rfl, rfl⟩

theorem claimC9_reserved_fields_witness :
    clean_enrich none (fun _ => none) (fun _ => Except.error "") ⟨[], some "basic"⟩
      = CEResult.ok (Envelope.mk [] [] [] [] "basic")
    ∧ ((Envelope.mk ([] : List Record) [] [] [] "basic").enhancementStats = []
      ∧ (Envelope.mk ([] : List Record) [] [] [] "basic").duplicateWarnings = []) :=
  ⟨rfl, claimC9_reserved_fields none (fun _ => none) (fun _ => Except.error "")
    ⟨[], some "basic"⟩ (Envelope.mk [] [] [] [] "basic") rfl⟩

/-- Claim C3 (confirmed): in basic or statistical (code string tabpfn) mode,
the response data has one record per input record, errorRows is empty,
every string field of every output record is strip-fixed (no leading or
trailing whitespace), and every field that was null, or missing while
present somewhere in the batch, comes out as the empty string. -/
theorem claimC3_basic_statistical (apiKey : Option String)
    (jl : String → Option Record) (oracle : Nat → Except String Json)
    (records : List Record) (m : Option String)
    (hm : m = some "basic" ∨ m = some "tabpfn") :
    (clean_enrich apiKey jl oracle ⟨records, m⟩).envData.length = records.length
    ∧ (clean_enrich apiKey jl oracle ⟨records, m⟩).envErrors = []
    ∧ (∀ r, r ∈ (clean_enrich apiKey jl oracle ⟨records, m⟩).envData →
        ∀ p, p ∈ r → ∀ s, p.2 = Json.str s → pyStrip s = s)
    ∧ List.Forall₂ (fun r0 r1 => ∀ k,
          (lookup r0 k = some Json.null ∨ (k ∈ columns records ∧ lookup r0 k = none)) →
          lookup r1 k = some (Json.str "")) records
        (clean_enrich apiKey jl oracle ⟨records, m⟩).envData := by
  have henv : clean_enrich apiKey jl oracle ⟨records, m⟩
      = CEResult.ok (Envelope.mk (sanitize records) [] [] [] (effectiveMode m)) := by
    rcases hm with h | h <;> subst h <;>
      exact clean_enrich_sanitize apiKey jl oracle records _ (by decide) (by decide)
  rw [henv]
  simp only [CEResult.envData, CEResult.envErrors]
  refine ⟨sanitize_length records, trivial, ?_, ?_⟩
  · intro r hr p hp s hs
    unfold sanitize at hr
    obtain ⟨r0, _, rfl⟩ := List.mem_map.mp hr
    obtain ⟨k, hk, rfl⟩ := List.mem_map.mp hp
    exact stripFill_fixed (lookup r0 k) s hs
  · show List.Forall₂ _ records
      (records.map (fun r => (columns records).map (fun k => (k, stripFill (lookup r k)))))
    rw [List.forall₂_map_right_iff]
    rw [List.forall₂_same]
    intro r hr k hk
    rcases hk with hnull | ⟨hmem, hnone⟩
    · have hkc : k ∈ columns records :=
        (mem_columns records k).mpr ⟨r, hr, lookup_mem_keys r k Json.null hnull⟩
      rw [lookup_sanitized records r k hkc, hnull]
      rfl
    · rw [lookup_sanitized records r k hmem, hnone]
      rfl

theorem claimC3_basic_statistical_witness :
    (some "basic" = some "basic" ∨ some "basic" = some "tabpfn")
    ∧ ((clean_enrich none (fun _ => none) (fun _ => Except.error "")
          ⟨[], some "basic"⟩).envData.length = ([] : List Record).length
      ∧ (clean_enrich none (fun _ => none) (fun _ => Except.error "")
          ⟨[], some "basic"⟩).envErrors = []
      ∧ (∀ r, r ∈ (clean_enrich none (fun _ => none) (fun _ => Except.error "")
            ⟨[], some "basic"⟩).envData →
          ∀ p, p ∈ r → ∀ s, p.2 = Json.str s → pyStrip s = s)
      ∧ List.Forall₂ (fun r0 r1 => ∀ k,
            (lookup r0 k = some Json.null
              ∨ (k ∈ columns ([] : List Record) ∧ lookup r0 k = none)) →
            lookup r1 k = some (Json.str "")) ([] : List Record)
          (clean_enrich none (fun _ => none) (fun _ => Except.error "")
            ⟨[], some "basic"⟩).envData) :=
  ⟨Or.inl rfl, claimC3_basic_statistical none (fun _ => none) (fun _ => Except.error "")
    [] (some "basic") (Or.inl rfl)⟩

/-- Claim C10 (confirmed): in basic or statistical (tabpfn) mode every
output record carries exactly the column union of the batch: the column
union is the set of field names appearing in some input record, every
output record has exactly that field-name list, and a field of the union
absent from a given input record appears in the corresponding output
record with the empty string. -/
theorem claimC10_column_union (apiKey : Option String)
    (jl : String → Option Record) (oracle : Nat → Except String Json)
    (records : List Record) (m : Option String)
    (hm : m = some "basic" ∨ m = some "tabpfn") :
    (∀ k, k ∈ columns records ↔ ∃ r, r ∈ records ∧ k ∈ keys r)
    ∧ (∀ r, r ∈ (clean_enrich apiKey jl oracle ⟨records, m⟩).envData →
        keys r = columns records)
    ∧ List.Forall₂ (fun r0 r1 => ∀ k, k ∈ columns records → ¬ k ∈ keys r0 →
          lookup r1 k = some (Json.str "")) records
        (clean_enrich apiKey jl oracle ⟨records, m⟩).envData := by
  have henv : clean_enrich apiKey jl oracle ⟨records, m⟩
      = CEResult.ok (Envelope.mk (sanitize records) [] [] [] (effectiveMode m)) := by
    rcases hm with h | h <;> subst h <;>
      exact clean_enrich_sanitize apiKey jl oracle records _ (by decide) (by decide)
  rw [henv]
  simp only [CEResult.envData]
  refine ⟨mem_columns records, fun r hr => sanitize_keys records r hr, ?_⟩
  show List.Forall₂ _ records
    (records.map (fun r => (columns records).map (fun k => (k, stripFill (lookup r k)))))
  rw [List.forall₂_map_right_iff, List.forall₂_same]
  intro r hr k hkc hknot
  rw [lookup_sanitized records r k hkc, lookup_eq_none_of_not_mem r k hknot]
  rfl

theorem claimC10_column_union_witness :
    (some "basic" = some "basic" ∨ some "basic" = some "tabpfn")
    ∧ ((∀ k, k ∈ columns ([] : List Record) ↔ ∃ r, r ∈ ([] : List Record) ∧ k ∈ keys r)
      ∧ (∀ r, r ∈ (clean_enrich none (fun _ => none) (fun _ => Except.error "")
            ⟨[], some "basic"⟩).envData → keys r = columns ([] : List Record))
      ∧ List.Forall₂ (fun r0 r1 => ∀ k, k ∈ columns ([] : List Record) → ¬ k ∈ keys r0 →
            lookup r1 k = some (Json.str "")) ([] : List Record)
          (clean_enrich none (fun _ => none) (fun _ => Except.error "")
            ⟨[], some "basic"⟩).envData) :=
  ⟨Or.inl rfl, claimC10_column_union none (fun _ => none) (fun _ => Except.error "")
    [] (some "basic") (Or.inl rfl)⟩

/-- Claim C7 (confirmed): processing in basic or statistical (tabpfn) mode
is idempotent: feeding the returned data back through clean_enrich with the
same mode returns the same data.  The result does not depend on the
credential, the oracle, or json.loads, so there is no hidden state. -/
theorem claimC7_idempotent (apiKey : Option String)
    (jl : String → Option Record) (oracle : Nat → Except String Json)
    (records : List Record) (m : Option String)
    (hm : m = some "basic" ∨ m = some "tabpfn") :
    (clean_enrich apiKey jl oracle
        ⟨(clean_enrich apiKey jl oracle ⟨records, m⟩).envData, m⟩).envData
      = (clean_enrich apiKey jl oracle ⟨records, m⟩).envData := by
  rcases hm with h | h <;> subst h <;>
    rw [clean_enrich_sanitize apiKey jl oracle records _ (by decide) (by decide)] <;>
    simp only [CEResult.envData] <;>
    rw [clean_enrich_sanitize apiKey jl oracle (sanitize records) _ (by decide) (by decide)] <;>
    simp only [CEResult.envData] <;>
    exact sanitize_idem records

theorem claimC7_idempotent_witness :
    (some "basic" = some "basic" ∨ some "basic" = some "tabpfn")
    ∧ (clean_enrich none (fun _ => none) (fun _ => Except.error "")
        ⟨(clean_enrich none (fun _ => none) (fun _ => Except.error "")
            ⟨[[("name", Json.str " Alice ")]], some "basic"⟩).envData,
          some "basic"⟩).envData
      = (clean_enrich none (fun _ => none) (fun _ => Except.error "")
          ⟨[[("name", Json.str " Alice ")]], some "basic"⟩).envData :=
  ⟨Or.inl rfl, claimC7_idempotent none (fun _ => none) (fun _ => Except.error "")
    [[("name", Json.str " Alice ")]] (some "basic") (Or.inl rfl)⟩

/-- Claim C6 counterexample: the claim says an unrecognized mode string is
echoed verbatim in usedAI.  The empty string is an unrecognized string, but
the source computes mode = request.mode or tabpfn, and the empty string is
falsy in Python, so usedAI reports tabpfn, not the empty string. -/
theorem claimC6_counterexample :
    (clean_enrich none (fun _ => none) (fun _ => Except.error "")
        ⟨[], some ""⟩).usedMode = "tabpfn"
    ∧ ¬ ("tabpfn" = "") := ⟨rfl, by decide⟩

/-- Claim C6 (corrected): an absent mode defaults to statistical (tabpfn),
and a nonempty unrecognized mode string is echoed verbatim in usedAI while
the batch is processed exactly like basic/tabpfn (full-batch sanitize,
empty errorRows).  The amendment forced by the counterexample: the empty
mode string is not echoed verbatim but treated as absent, yielding the
tabpfn default in usedAI. -/
theorem claimC6_amended (apiKey : Option String) (jl : String → Option Record)
    (oracle : Nat → Except String Json) (records : List Record) :
    (clean_enrich apiKey jl oracle ⟨records, none⟩
        = CEResult.ok (Envelope.mk (sanitize records) [] [] [] "tabpfn"))
    ∧ (∀ s : String, ¬ s = "" → ¬ s = "huggingface" →
        clean_enrich apiKey jl oracle ⟨records, some s⟩
          = CEResult.ok (Envelope.mk (sanitize records) [] [] [] s))
    ∧ (clean_enrich apiKey jl oracle ⟨records, some ""⟩
        = CEResult.ok (Envelope.mk (sanitize records) [] [] [] "tabpfn")) :=
  ⟨clean_enrich_default apiKey jl oracle records,
   fun s hs2 hs1 => clean_enrich_sanitize apiKey jl oracle records s hs1 hs2,
   clean_enrich_empty_mode apiKey jl oracle records⟩

theorem claimC6_amended_witness :
    ¬ ("weird" = "") ∧ ¬ ("weird" = "huggingface")
    ∧ clean_enrich none (fun _ => none) (fun _ => Except.error "") ⟨[], some "weird"⟩
        = CEResult.ok (Envelope.mk (sanitize []) [] [] [] "weird") :=
  ⟨by decide, by decide,
    (claimC6_amended none (fun _ => none) (fun _ => Except.error "") []).2.1 "weird"
      (by decide) (by decide)⟩

/-- Claim C1 counterexample: a two-row generative batch in which every row
fails: row 1 receives a response object without generated_text (the absent
generated text cause) and row 2 raises an exception.  The claim requires a
RowError for every failing row, hence errorRows of length 2; the source
emits a RowError only from the exception handler, so errorRows has length
1.  The full result also shows that the rows appended to data are the rows
as materialized from the DataFrame over the column union (row 1 gains the
field b with the missing-value sentinel), not the input records
themselves. -/
theorem claimC1_counterexample :
    clean_enrich (some "k") (fun _ => none)
        (fun n => if n = 0 then Except.ok (Json.obj []) else Except.error "boom")
        ⟨[[("a", Json.str "x")], [("b", Json.str "y")]], some "huggingface"⟩
      = CEResult.ok (Envelope.mk
          [[("a", Json.str "x"), ("b", Json.null)], [("a", Json.null), ("b", Json.str "y")]]
          [RowError.mk 2 [("a", Json.null), ("b", Json.str "y")] "boom"]
          [] [] "huggingface")
    ∧ ¬ ((clean_enrich (some "k") (fun _ => none)
        (fun n => if n = 0 then Except.ok (Json.obj []) else Except.error "boom")
        ⟨[[("a", Json.str "x")], [("b", Json.str "y")]], some "huggingface"⟩).envErrors.length
          = 2) := ⟨rfl, by decide⟩

/-- Claim C1 (corrected): in generative (huggingface) mode, a RowError is
emitted only when the processing of a row raises an exception (the call
fails, the body is not JSON, the body is not an object, or generated_text
is truthy but not a string); the other listed causes (absent or falsy
generated text, no brace pattern, json.loads failure) append the original
row to data silently, with no RowError.  The appended row is the row as
materialized from the DataFrame.  Amended consequence: for a batch whose
records all share one field-name list (without duplicates) and in which
every row raises an exception, data equals the input records, errorRows
has one entry per record in order carrying the 1-based index and the
original row. -/
theorem claimC1_amended (apiKey : Option String) (jl : String → Option Record)
    (oracle : Nat → Except String Json) (records : List Record)
    (ks : List String) (hkey : hasKey apiKey = true)
    (hks : ∀ r ∈ records, keys r = ks) (hnd : ks.Nodup)
    (hfail : ∀ j, j < records.length → ∃ m, oracle j = Except.error m) :
    (clean_enrich apiKey jl oracle ⟨records, some "huggingface"⟩).envData = records
    ∧ (clean_enrich apiKey jl oracle
          ⟨records, some "huggingface"⟩).envErrors.map RowError.rowIndex
        = (List.range records.length).map (fun j => j + 1)
    ∧ (clean_enrich apiKey jl oracle
          ⟨records, some "huggingface"⟩).envErrors.map RowError.data
        = records := by
  rw [clean_enrich_hf apiKey jl oracle records hkey]
  simp only [CEResult.envData, CEResult.envErrors]
  cases records with
  | nil => exact ⟨rfl, rfl, rfl⟩
  | cons r rest =>
    have hcols : columns (r :: rest) = ks :=
      columns_uniform (r :: rest) ks hks hnd (by simp)
    have hfail0 : ∀ j, j < (r :: rest).length → ∃ m, oracle (0 + j) = Except.error m := by
      intro j hj
      simpa [Nat.zero_add] using hfail j hj
    have hmain := hfAux_allfail jl oracle ks (r :: rest) 0 hks hnd hfail0
    unfold hfProcess
    rw [hcols]
    refine ⟨hmain.1, ?_, hmain.2.2⟩
    rw [hmain.2.1]
    apply List.map_congr_left
    intro j hj
    omega

theorem claimC1_amended_witness :
    hasKey (some "k") = true
    ∧ (∀ r ∈ [[(("a" : String), Json.str "x")]], keys r = ["a"])
    ∧ (["a"] : List String).Nodup
    ∧ ((clean_enrich (some "k") (fun _ => none) (fun _ => Except.error "boom")
          ⟨[[("a", Json.str "x")]], some "huggingface"⟩).envData
        = [[("a", Json.str "x")]]
      ∧ (clean_enrich (some "k") (fun _ => none) (fun _ => Except.error "boom")
          ⟨[[("a", Json.str "x")]], some "huggingface"⟩).envErrors.map RowError.rowIndex
        = (List.range 1).map (fun j => j + 1)
      ∧ (clean_enrich (some "k") (fun _ => none) (fun _ => Except.error "boom")
          ⟨[[("a", Json.str "x")]], some "huggingface"⟩).envErrors.map RowError.data
        = [[("a", Json.str "x")]]) :=
  ⟨rfl, by decide, by decide,
    claimC1_amended (some "k") (fun _ => none) (fun _ => Except.error "boom")
      [[("a", Json.str "x")]] ["a"] rfl (by decide) (by decide)
      (fun j hj => ⟨"boom", rfl⟩)⟩

/-- Claim C4 counterexample: the claim says each generative output row is
either the parsed cleaned object or the original row.  In a two-row batch
with distinct field names, both rows failing with an exception and
json.loads never invoked, the first output row is the DataFrame
materialization of the first record over the column union (it gains field
b with the missing-value sentinel) and therefore differs from the original
record, and no parse ever succeeded. -/
theorem claimC4_counterexample :
    (clean_enrich (some "k") (fun _ => none) (fun _ => Except.error "boom")
        ⟨[[("a", Json.str "x")], [("b", Json.str "y")]], some "huggingface"⟩).envData
      = [[("a", Json.str "x"), ("b", Json.null)], [("a", Json.null), ("b", Json.str "y")]]
    ∧ ¬ ([(("a" : String), Json.str "x"), ("b", Json.null)] = [(("a" : String), Json.str "x")]) :=
  ⟨rfl, by intro h; have := congrArg List.length h; simp at this⟩

/-- Claim C4 (corrected): data preserves the original row order in every
mode, and in generative (huggingface) mode every input row produces
exactly one output row, in input order, with no drops and no duplication
of rows: the data list is exactly the input list enumerated and mapped
row-by-row.  Amendment forced by the counterexample: the non-parsed output
row is the original row as materialized from the DataFrame over the
column union of the batch (equal to the original record whenever all
records share one field-name list), not necessarily the input record
itself. -/
theorem claimC4_amended (apiKey : Option String) (jl : String → Option Record)
    (oracle : Nat → Except String Json) (records : List Record) (m : Option String)
    (hkey : hasKey apiKey = true)
    (hm : m = some "basic" ∨ m = some "tabpfn") :
    (clean_enrich apiKey jl oracle ⟨records, m⟩).envData
      = records.map (fun r => (columns records).map (fun k => (k, stripFill (lookup r k))))
    ∧ (clean_enrich apiKey jl oracle ⟨records, some "huggingface"⟩).envData
      = (enumRows 0 records).map (fun p =>
          match hfRowStep jl (oracle p.1) with
          | RowStep.ok c => c
          | RowStep.fallback => rowToDict (columns records) p.2
          | RowStep.failed _ => rowToDict (columns records) p.2) := by
  constructor
  · rcases hm with h | h <;> subst h <;>
      rw [clean_enrich_sanitize apiKey jl oracle records _ (by decide) (by decide)] <;>
      rfl
  · rw [clean_enrich_hf apiKey jl oracle records hkey]
    simp only [CEResult.envData]
    exact hfAux_fst jl oracle (columns records) records 0

theorem claimC4_amended_witness :
    hasKey (some "k") = true
    ∧ (some "basic" = some "basic" ∨ some "basic" = some "tabpfn")
    ∧ ((clean_enrich (some "k") (fun _ => none) (fun _ => Except.error "")
          ⟨[], some "basic"⟩).envData
        = ([] : List Record).map
            (fun r => (columns ([] : List Record)).map
              (fun k => (k, stripFill (lookup r k))))
      ∧ (clean_enrich (some "k") (fun _ => none) (fun _ => Except.error "")
          ⟨[], some "huggingface"⟩).envData
        = (enumRows 0 ([] : List Record)).map (fun p =>
            match hfRowStep (fun _ => none) (Except.error "") with
            | RowStep.ok c => c
            | RowStep.fallback => rowToDict (columns ([] : List Record)) p.2
            | RowStep.failed _ => rowToDict (columns ([] : List Record)) p.2)) :=
  ⟨rfl, Or.inl rfl,
    claimC4_amended (some "k") (fun _ => none) (fun _ => Except.error "")
      [] (some "basic") rfl (Or.inl rfl)⟩

/-- Claim C5 counterexample: the claim says each per-row external call is
invoked with a fixed, bounded per-call timeout.  The requests.post call at
source lines 44-48 passes only headers and json keyword arguments; no
timeout argument appears, so requests waits indefinitely (the companion
test script sets timeout=20, the service does not). -/
theorem claimC5_counterexample :
    (hfPostCall "meta-llama/Meta-Llama-3-8B-Instruct").timeout = none := rfl

/-- Claim C5 (corrected): the per-row call carries no explicit timeout (the
counterexample), so no fixed bound is configured.  The true part of the
claim stands: if the call for row i raises (for example requests raising
its timeout exception), the batch does not fail: the result is still a
normal envelope, data keeps one row per record, a RowError carrying the
1-based index, the materialized original row, and the exception message is
present, and the same row appears at position i of data. -/
theorem claimC5_amended (apiKey : Option String) (jl : String → Option Record)
    (oracle : Nat → Except String Json) (records : List Record) (i : Nat)
    (msg : String) (hkey : hasKey apiKey = true) (hi : i < records.length)
    (hto : oracle i = Except.error msg) :
    (hfPostCall "meta-llama/Meta-Llama-3-8B-Instruct").timeout = none
    ∧ (∃ e, clean_enrich apiKey jl oracle ⟨records, some "huggingface"⟩
        = CEResult.ok e)
    ∧ (clean_enrich apiKey jl oracle
          ⟨records, some "huggingface"⟩).envData.length = records.length
    ∧ RowError.mk (i + 1) (rowToDict (columns records) (records.get ⟨i, hi⟩)) msg
        ∈ (clean_enrich apiKey jl oracle ⟨records, some "huggingface"⟩).envErrors
    ∧ (clean_enrich apiKey jl oracle ⟨records, some "huggingface"⟩).envData[i]?
        = some (rowToDict (columns records) (records.get ⟨i, hi⟩)) := by
  rw [clean_enrich_hf apiKey jl oracle records hkey]
  simp only [CEResult.envData, CEResult.envErrors]
  refine ⟨rfl, ⟨_, rfl⟩, hfAux_len jl oracle (columns records) records 0, ?_, ?_⟩
  · have hmem := hfAux_err_mem jl oracle (columns records) records 0 i hi msg
      (by simpa using hto)
    simpa using hmem
  · have hget := hfAux_data_get jl oracle (columns records) records 0 i hi msg
      (by simpa using hto)
    simpa using hget

theorem claimC5_amended_witness :
    hasKey (some "k") = true
    ∧ (0 : Nat) < [[(("a" : String), Json.str "x")]].length
    ∧ ((hfPostCall "meta-llama/Meta-Llama-3-8B-Instruct").timeout = none
      ∧ (∃ e, clean_enrich (some "k") (fun _ => none)
            (fun _ => Except.error "Request to Hugging Face timed out")
            ⟨[[("a", Json.str "x")]], some "huggingface"⟩ = CEResult.ok e)
      ∧ (clean_enrich (some "k") (fun _ => none)
            (fun _ => Except.error "Request to Hugging Face timed out")
            ⟨[[("a", Json.str "x")]], some "huggingface"⟩).envData.length
          = [[(("a" : String), Json.str "x")]].length
      ∧ RowError.mk 1
            (rowToDict (columns [[(("a" : String), Json.str "x")]])
              ([[(("a" : String), Json.str "x")]].get ⟨0, by decide⟩))
            "Request to Hugging Face timed out"
          ∈ (clean_enrich (some "k") (fun _ => none)
              (fun _ => Except.error "Request to Hugging Face timed out")
              ⟨[[("a", Json.str "x")]], some "huggingface"⟩).envErrors
      ∧ (clean_enrich (some "k") (fun _ => none)
            (fun _ => Except.error "Request to Hugging Face timed out")
            ⟨[[("a", Json.str "x")]], some "huggingface"⟩).envData[0]?
          = some (rowToDict (columns [[(("a" : String), Json.str "x")]])
              ([[(("a" : String), Json.str "x")]].get ⟨0, by decide⟩))) :=
  ⟨rfl, by decide,
    claimC5_amended (some "k") (fun _ => none)
      (fun _ => Except.error "Request to Hugging Face timed out")
      [[("a", Json.str "x")]] 0 "Request to Hugging Face timed out"
      rfl (by decide) rfl⟩
